import Mathlib

/-!
Verification of the essay-assessment application (src/streamlit_app.py).

Strings are modelled as `List Char`; Python slicing `s[a:b]` becomes
`(s.drop a).take (b - a)` (both clamp out-of-range indices), and the
in-place `list.sort(key=..., reverse=True)` (a stable descending sort)
is modelled by `List.insertionSort` with the reflexive "greater or equal
offset" relation, which is likewise stable and descending.  Mutation of
the caller-supplied error list by `render_simple_highlight` is made
explicit by returning the final list alongside the output string.
Failure paths of the HTTP layer (network error, timeout, non-2xx raised
by raise_for_status, JSON decode error) are modelled by the `failure`
constructor of `LTResponse`; a missing "offset"/"length" key of a match
(a KeyError inside the loop, caught by the same except) is modelled by
`Option`-valued fields.  Python `str.lower` is modelled on ASCII plus
the Vietnamese uppercase letters that occur in the keyword table.
-/

set_option maxHeartbeats 1000000

namespace Essay

abbrev Str := List Char

/-- An error record as built by `SimpleLanguageToolChecker.check_text`:
a Python dict with keys "offset", "length", "replacements", "bad_word". -/
structure ErrorRec where
  offset : Nat
  length : Nat
  replacements : List Str
  bad_word : Str
deriving DecidableEq

/-! ## Offset highlighter (render_simple_highlight, lines 137-155) -/

/-- The opening markup wrapper spliced around each error segment. -/
def grammarOpenTag : Str := "<span class=\"grammar-error\">".data

/-- The closing markup wrapper. -/
def grammarCloseTag : Str := "</span>".data

/-- One iteration of the highlighting loop:
`highlighted_text = highlighted_text[:start] + replacement + highlighted_text[end:]`
with `replacement = open + highlighted_text[start:end] + close`. -/
def spliceSpan (s : Str) (err : ErrorRec) : Str :=
  let start := err.offset
  let stop := err.offset + err.length
  let bad_segment := (s.drop start).take err.length
  s.take start ++ grammarOpenTag ++ bad_segment ++ grammarCloseTag ++ s.drop stop

/-- Python `.replace("\n", "<br>")`. -/
def replaceNewlines : Str → Str
  | [] => []
  | c :: rest =>
      if c = '\n' then '<' :: 'b' :: 'r' :: '>' :: replaceNewlines rest
      else c :: replaceNewlines rest

/-- Descending-offset comparison used by `errors.sort(key=lambda x: x["offset"], reverse=True)`. -/
def offGE (a b : ErrorRec) : Prop := b.offset ≤ a.offset

instance : DecidableRel offGE := fun a b => Nat.decLe b.offset a.offset
instance : IsTotal ErrorRec offGE := ⟨fun a b => Nat.le_total b.offset a.offset⟩
instance : IsTrans ErrorRec offGE := ⟨fun _ _ _ h₁ h₂ => Nat.le_trans h₂ h₁⟩

/-- The stable descending sort performed in place on the error list. -/
def sortErrorsDesc (errors : List ErrorRec) : List ErrorRec :=
  List.insertionSort offGE errors

/-- `render_simple_highlight`, with the in-place mutation of the caller's
list made explicit: the second component is the state of the `errors`
list after the call returns (Python `list.sort` reorders it in place;
on the early `if not errors` return it is untouched). -/
def render_simple_highlight_full (text : Str) (errors : List ErrorRec) :
    Str × List ErrorRec :=
  if errors = [] then (text, errors)
  else
    let sorted := sortErrorsDesc errors
    (replaceNewlines (sorted.foldl spliceSpan text), sorted)

/-- The string returned by `render_simple_highlight`. -/
def render_simple_highlight (text : Str) (errors : List ErrorRec) : Str :=
  (render_simple_highlight_full text errors).1

/-! ## Grammar client (SimpleLanguageToolChecker.check_text, lines 110-135) -/

/-- One element of the "matches" array of the JSON response.  The
"offset" and "length" fields are `Option`-valued: `none` models a match
object missing that key (Python `match["offset"]` raises `KeyError`).
The replacement values are modelled as already-extracted strings. -/
structure LTMatch where
  offset : Option Nat
  length : Option Nat
  replacements : List Str
deriving DecidableEq

/-- Outcome of the HTTP POST plus JSON decoding.  `failure` covers every
raising path: network error, timeout, the non-2xx raise of
`raise_for_status`, and a malformed (non-JSON) body. -/
inductive LTResponse where
  | failure
  | success (ms : List LTMatch)

/-- The loop over `result.get("matches", [])`.  `none` means some match
raised a `KeyError`, aborting the whole call into the `except` branch. -/
def processMatches (text : Str) : List LTMatch → Option (List ErrorRec)
  | [] => some []
  | m :: rest => do
      let o ← m.offset
      let l ← m.length
      let tail ← processMatches text rest
      some ({ offset := o, length := l,
              replacements := m.replacements.take 3,
              bad_word := (text.drop o).take l } :: tail)

/-- `check_text`: on success builds the error records, on any exception
returns the empty list. -/
def check_text (text : Str) : LTResponse → List ErrorRec
  | .failure => []
  | .success ms => (processMatches text ms).getD []

/-! ## Response section parsing (main, lines 299-334) -/

/-- Python `str.isspace` on the ASCII whitespace characters. -/
def pyIsSpace (c : Char) : Bool :=
  c = ' ' || c = '\t' || c = '\n' || c = '\r' || c = '\x0B' || c = '\x0C'

/-- Removal of trailing whitespace (the right half of `str.strip`). -/
def stripTrailing (s : Str) : Str :=
  (s.reverse.dropWhile pyIsSpace).reverse

/-- Python `str.strip()`. -/
def pyStrip (s : Str) : Str :=
  stripTrailing (s.dropWhile pyIsSpace)

/-- Python `str.lower` on one character: ASCII letters plus the
Vietnamese uppercase letters occurring in the keyword table. -/
def pyLower1 (c : Char) : Char :=
  if 'A' ≤ c ∧ c ≤ 'Z' then Char.ofNat (c.toNat + 32)
  else match c with
    | 'Ả' => 'ả' | 'Ồ' => 'ồ' | 'Ê' => 'ê' | 'Ầ' => 'ầ' | 'Đ' => 'đ'
    | 'Ộ' => 'ộ' | 'Í' => 'í' | 'Á' => 'á' | 'Ô' => 'ô' | 'Ể' => 'ể'
    | 'Ý' => 'ý' | 'Ư' => 'ư' | 'Ở' => 'ở' | 'Ự' => 'ự' | 'Ạ' => 'ạ'
    | 'Ế' => 'ế' | 'Ậ' => 'ậ' | 'Ổ' => 'ổ' | 'Ệ' => 'ệ'
    | _ => c

/-- Python `str.lower`. -/
def pyLower (s : Str) : Str := s.map pyLower1

/-- `clean_line.replace('*', '').replace('-', '').replace('#', '')`. -/
def removeMarks (s : Str) : Str :=
  ((s.filter (fun c => c != '*')).filter (fun c => c != '-')).filter (fun c => c != '#')

/-- `norm_line = clean_line.replace('*','').replace('-','').replace('#','').strip().lower()`. -/
def normLine (clean : Str) : Str :=
  pyLower (pyStrip (removeMarks clean))

/-- `clean_line.split(':', 1)[1]`: everything after the first colon. -/
def afterFirstColon : Str → Str
  | [] => []
  | c :: rest => if c = ':' then rest else afterFirstColon rest

/-- The bilingual keyword table `section_map` (insertion order preserved,
as Python dicts do). -/
def section_map : List (Str × List Str) :=
  [("Task Response".data, ["Task Response".data, "Phản hồi yêu cầu".data]),
   ("Information Accuracy".data, ["Information Accuracy".data, "Độ chính xác thông tin".data]),
   ("Idea Development".data, ["Idea Development".data, "Phát triển ý tưởng".data]),
   ("Coherence".data, ["Coherence".data, "Sự mạch lạc".data]),
   ("Summary".data, ["Summary".data, "Kết luận".data]),
   ("Final Evaluation".data, ["Final Evaluation".data, "Đánh giá tổng quan".data]),
   ("AI Plagiarism".data, ["AI Plagiarism".data, "Phát hiện AI".data])]

/-- The canonical section keys, in declaration order. -/
def sectionKeys : List Str := section_map.map Prod.fst

/-- The doubly-nested keyword search with its two `break`s: the first
section key (in table order) one of whose lowered keywords is a prefix
of the normalized line. -/
def findSection (norm : Str) : List (Str × List Str) → Option Str
  | [] => none
  | (key, kws) :: rest =>
      if kws.any (fun kw => (pyLower kw).isPrefixOf norm) then some key
      else findSection norm rest

/-- The loop state: `current_section` and the accumulating `parsed_data`
dict, modelled as a total map that is `""` away from the section keys. -/
structure ParseState where
  current : Option Str
  parsed : Str → Str

/-- `parsed_data = {k: "" for k in section_map}; current_section = None`. -/
def initState : ParseState := { current := none, parsed := fun _ => [] }

/-- `parsed_data[key] += s`. -/
def appendContent (p : Str → Str) (key : Str) (s : Str) : Str → Str :=
  fun q => if q = key then p q ++ s else p q

/-- The body of `for line in lines`. -/
def stepLine (st : ParseState) (line : Str) : ParseState :=
  let clean := pyStrip line
  if clean = [] then st
  else
    match findSection (normLine clean) section_map with
    | some key =>
        if ':' ∈ clean then
          let content := pyStrip (afterFirstColon clean)
          if content = [] then { current := some key, parsed := st.parsed }
          else
            { current := some key,
              parsed := appendContent st.parsed key (content ++ [' ']) }
        else { current := some key, parsed := st.parsed }
    | none =>
        match st.current with
        | some key => { st with parsed := appendContent st.parsed key (clean ++ [' ']) }
        | none => st

/-- The whole parsing loop over a list of lines. -/
def parseLines (lines : List Str) : ParseState :=
  lines.foldl stepLine initState

/-- Parsing of the raw LLM response: `lines = llm_response_text.split('\n')`
followed by the loop; the result is the final `parsed_data`. -/
def parseResponse (raw : Str) : Str → Str :=
  (parseLines (raw.splitOn '\n')).parsed

/-! ## Specification-side definitions used to state the claims -/

/-- Non-overlap of two spans, as interval disjointness. -/
def spanDisjoint (a b : ErrorRec) : Prop :=
  a.offset + a.length ≤ b.offset ∨ b.offset + b.length ≤ a.offset

instance : DecidableRel spanDisjoint := fun x y =>
  inferInstanceAs (Decidable (x.offset + x.length ≤ y.offset ∨ y.offset + y.length ≤ x.offset))

/-- Modelled from the spec: the decomposition of the highlighter output
for spans processed in descending offset order — the text with each
span segment wrapped by the two markup tags. -/
def renderSpecD (text : Str) : List ErrorRec → Str
  | [] => text
  | e :: rest =>
      renderSpecD (text.take e.offset) rest ++ grammarOpenTag ++
        (text.drop e.offset).take e.length ++ grammarCloseTag ++
        text.drop (e.offset + e.length)

/-- Modelled from the spec: the same decomposition with the inserted
markup wrappers removed; "stripping all markup wrappers from the output
reconstructs the original text" is the statement that this erasure
equals the original text. -/
def eraseSpecD (text : Str) : List ErrorRec → Str
  | [] => text
  | e :: rest =>
      eraseSpecD (text.take e.offset) rest ++
        (text.drop e.offset).take e.length ++
        text.drop (e.offset + e.length)

/-- Modelled from the spec: rendering a parsed map back to one
"Key: value" line per section, joined by newlines. -/
def renderAssessment (m : Str → Str) : Str :=
  [ '\n' ].intercalate (sectionKeys.map (fun k => k ++ ':' :: ' ' :: m k))

/-- A span processed earlier (higher offset) leaves every strictly lower
span untouched: the relation between a span and each later-processed one. -/
def chainBefore (a b : ErrorRec) : Prop := b.offset + b.length ≤ a.offset

/-- The strict descending-offset relation, antisymmetric because two
records cannot each have the strictly larger offset. -/
def offGT (a b : ErrorRec) : Prop := b.offset < a.offset

instance : IsAntisymm ErrorRec offGT :=
  ⟨fun _ _ h₁ h₂ => absurd (Nat.lt_trans h₁ h₂) (Nat.lt_irrefl _)⟩

/-- The conditions a section key satisfies that make a rendered
"Key: value" line open exactly that key: nonempty, recognized by the
keyword search whatever follows the colon, free of the stripped
characters, and colon-free. -/
def labelOK (k : Str) : Prop :=
  k ≠ [] ∧
  (∀ Y : Str, findSection ((pyLower k ++ [':']) ++ Y) section_map = some k) ∧
  removeMarks k = k ∧
  List.dropWhile pyIsSpace k = k ∧
  stripTrailing k = k ∧
  ':' ∉ k

/-- The effect of one rendered "Key: value" line on the accumulating
`parsed_data` map. -/
def applyLine (v : Str → Str) (p : Str → Str) (k : Str) : Str → Str :=
  if pyStrip (v k) = [] then p else appendContent p k (pyStrip (v k) ++ [' '])

/-- The parsed map produced from a rendered assessment: each section key
holds the stripped value followed by one space, all other strings map to
the empty string. -/
def parsedAssessment (v : Str → Str) : Str → Str := fun q =>
  if q ∈ sectionKeys then
    (if pyStrip (v q) = [] then [] else pyStrip (v q) ++ [' '])
  else []

/-- A concrete assessment map used to instantiate the round-trip
theorem. -/
def demoAssessment : Str → Str := fun k =>
  if k = "Task Response".data then "Good job.".data else "ok".data

/-! ## Helper lemmas: grammar client -/

theorem processMatches_eq_none (text : Str) (ms : List LTMatch)
    (h : ∃ m ∈ ms, m.offset = none ∨ m.length = none) :
    processMatches text ms = none := by
  induction ms with
  | nil => simp at h
  | cons m rest ih =>
      obtain ⟨m', hm', hbad⟩ := h
      rcases List.mem_cons.mp hm' with h' | h'
      · subst h'
        rcases hbad with hb | hb <;>
          cases ho : m'.offset <;> cases hl : m'.length <;>
            simp_all [processMatches, Option.bind]
      · have := ih ⟨m', h', hbad⟩
        cases ho : m.offset <;> cases hl : m.length <;>
          simp_all [processMatches, Option.bind]

theorem processMatches_sound (text : Str) :
    ∀ (ms : List LTMatch) (res : List ErrorRec),
      processMatches text ms = some res →
      ∀ e ∈ res, ∃ m ∈ ms, m.offset = some e.offset ∧ m.length = some e.length ∧
        e.replacements = m.replacements.take 3 ∧
        e.bad_word = (text.drop e.offset).take e.length := by
  intro ms
  induction ms with
  | nil =>
      intro res hres e he
      simp [processMatches] at hres
      subst hres; simp at he
  | cons m rest ih =>
      intro res hres e he
      cases ho : m.offset with
      | none => simp [processMatches, ho, Option.bind] at hres
      | some o =>
        cases hl : m.length with
        | none => simp [processMatches, ho, hl, Option.bind] at hres
        | some l =>
          cases hrec : processMatches text rest with
          | none => simp [processMatches, ho, hl, hrec, Option.bind] at hres
          | some tail =>
              have hres' : res =
                  ({ offset := o, length := l,
                     replacements := m.replacements.take 3,
                     bad_word := (text.drop o).take l } : ErrorRec) :: tail := by
                simp [processMatches, ho, hl, hrec, Option.bind] at hres
                exact hres.symm
              subst hres'
              rcases List.mem_cons.mp he with h' | h'
              · subst h'
                exact ⟨m, List.mem_cons_self _ _, by simp [ho], by simp [hl], rfl, rfl⟩
              · obtain ⟨m', hm', hrest⟩ := ih tail hrec e h'
                exact ⟨m', List.mem_cons_of_mem _ hm', hrest⟩

/-! ## Helper lemmas: highlighter structure -/

theorem length_spliceSpan (s : Str) (e : ErrorRec)
    (h : e.offset + e.length ≤ s.length) :
    (spliceSpan s e).length = s.length + 35 := by
  have h1 : e.offset ≤ s.length := by omega
  have h2 : e.length ≤ (s.drop e.offset).length := by
    rw [List.length_drop]; omega
  show (s.take e.offset ++ grammarOpenTag ++ (s.drop e.offset).take e.length ++
      grammarCloseTag ++ s.drop (e.offset + e.length)).length = s.length + 35
  rw [List.length_append, List.length_append, List.length_append, List.length_append,
      List.length_take_of_le h1, List.length_take_of_le h2, List.length_drop]
  have ho : grammarOpenTag.length = 28 := rfl
  have hc : grammarCloseTag.length = 7 := rfl
  rw [ho, hc]
  omega

theorem spliceSpan_append (A R : Str) (e : ErrorRec)
    (h : e.offset + e.length ≤ A.length) :
    spliceSpan (A ++ R) e = spliceSpan A e ++ R := by
  have h1 : e.offset ≤ A.length := by omega
  have e1 : (A ++ R).take e.offset = A.take e.offset :=
    List.take_append_of_le_length h1
  have e2 : (A ++ R).drop e.offset = A.drop e.offset ++ R :=
    List.drop_append_of_le_length h1
  have e3 : (A ++ R).drop (e.offset + e.length) = A.drop (e.offset + e.length) ++ R :=
    List.drop_append_of_le_length h
  have e4 : (A.drop e.offset ++ R).take e.length = (A.drop e.offset).take e.length :=
    List.take_append_of_le_length (by rw [List.length_drop]; omega)
  show (A ++ R).take e.offset ++ grammarOpenTag ++ ((A ++ R).drop e.offset).take e.length ++
      grammarCloseTag ++ (A ++ R).drop (e.offset + e.length) =
    (A.take e.offset ++ grammarOpenTag ++ (A.drop e.offset).take e.length ++
      grammarCloseTag ++ A.drop (e.offset + e.length)) ++ R
  rw [e1, e2, e3, e4]
  simp [List.append_assoc]

theorem foldl_spliceSpan_append (d : List ErrorRec) :
    ∀ A R : Str, (∀ e ∈ d, e.offset + e.length ≤ A.length) →
      d.foldl spliceSpan (A ++ R) = d.foldl spliceSpan A ++ R := by
  induction d with
  | nil => intro A R _; rfl
  | cons e rest ih =>
      intro A R h
      have he := h e (List.mem_cons_self _ _)
      rw [List.foldl_cons, List.foldl_cons, spliceSpan_append A R e he]
      refine ih (spliceSpan A e) R ?_
      intro x hx
      have hx' := h x (List.mem_cons_of_mem _ hx)
      have hlen := length_spliceSpan A e he
      omega

theorem length_foldl_spliceSpan (d : List ErrorRec) :
    ∀ s : Str, (∀ e ∈ d, e.offset + e.length ≤ s.length) →
      (d.foldl spliceSpan s).length = s.length + 35 * d.length := by
  induction d with
  | nil => intro s _; simp
  | cons e rest ih =>
      intro s h
      have he := h e (List.mem_cons_self _ _)
      have hlen := length_spliceSpan s e he
      rw [List.foldl_cons, ih (spliceSpan s e) (fun x hx => by
        have := h x (List.mem_cons_of_mem _ hx); omega), hlen, List.length_cons]
      omega

theorem foldl_spliceSpan_eq_renderSpecD (d : List ErrorRec) :
    ∀ text : Str, List.Pairwise chainBefore d →
      (∀ e ∈ d, e.offset + e.length ≤ text.length) →
      d.foldl spliceSpan text = renderSpecD text d := by
  induction d with
  | nil => intro text _ _; rfl
  | cons e rest ih =>
      intro text hp hb
      have he := hb e (List.mem_cons_self _ _)
      have ho : e.offset ≤ text.length := by omega
      have hsp : spliceSpan text e =
          text.take e.offset ++ (grammarOpenTag ++ (text.drop e.offset).take e.length ++
            grammarCloseTag ++ text.drop (e.offset + e.length)) := by
        show text.take e.offset ++ grammarOpenTag ++ (text.drop e.offset).take e.length ++
            grammarCloseTag ++ text.drop (e.offset + e.length) = _
        simp [List.append_assoc]
      have hrest : ∀ x ∈ rest, x.offset + x.length ≤ (text.take e.offset).length := by
        intro x hx
        rw [List.length_take_of_le ho]
        exact (List.pairwise_cons.mp hp).1 x hx
      rw [List.foldl_cons, hsp, foldl_spliceSpan_append rest _ _ hrest,
          ih (text.take e.offset) (List.pairwise_cons.mp hp).2 hrest]
      show _ = renderSpecD (text.take e.offset) rest ++ grammarOpenTag ++
        (text.drop e.offset).take e.length ++ grammarCloseTag ++
        text.drop (e.offset + e.length)
      simp [List.append_assoc]

theorem eraseSpecD_eq (d : List ErrorRec) :
    ∀ text : Str, List.Pairwise chainBefore d →
      (∀ e ∈ d, e.offset + e.length ≤ text.length) →
      eraseSpecD text d = text := by
  induction d with
  | nil => intro text _ _; rfl
  | cons e rest ih =>
      intro text hp hb
      have he := hb e (List.mem_cons_self _ _)
      have ho : e.offset ≤ text.length := by omega
      have hrest : ∀ x ∈ rest, x.offset + x.length ≤ (text.take e.offset).length := by
        intro x hx
        rw [List.length_take_of_le ho]
        exact (List.pairwise_cons.mp hp).1 x hx
      show eraseSpecD (text.take e.offset) rest ++
          (text.drop e.offset).take e.length ++ text.drop (e.offset + e.length) = text
      rw [ih (text.take e.offset) (List.pairwise_cons.mp hp).2 hrest]
      have h1 : text.drop (e.offset + e.length) = (text.drop e.offset).drop e.length := by
        rw [List.drop_drop]
      rw [h1, List.append_assoc, List.take_append_drop, List.take_append_drop]

theorem not_mem_spliceSpan (s : Str) (e : ErrorRec) (c : Char)
    (hs : c ∉ s) (ho : c ∉ grammarOpenTag) (hc : c ∉ grammarCloseTag) :
    c ∉ spliceSpan s e := by
  intro hmem
  have hmem' : c ∈ s.take e.offset ∨ c ∈ grammarOpenTag ∨
      c ∈ (s.drop e.offset).take e.length ∨ c ∈ grammarCloseTag ∨
      c ∈ s.drop (e.offset + e.length) := by
    have h0 : c ∈ s.take e.offset ++ grammarOpenTag ++
        (s.drop e.offset).take e.length ++ grammarCloseTag ++
        s.drop (e.offset + e.length) := hmem
    simpa [List.mem_append, or_assoc] using h0
  rcases hmem' with h | h | h | h | h
  · exact hs (List.mem_of_mem_take h)
  · exact ho h
  · exact hs (List.mem_of_mem_drop (List.mem_of_mem_take h))
  · exact hc h
  · exact hs (List.mem_of_mem_drop h)

theorem not_mem_foldl_spliceSpan (d : List ErrorRec) :
    ∀ s : Str, '\n' ∉ s → '\n' ∉ d.foldl spliceSpan s := by
  induction d with
  | nil => intro s h; exact h
  | cons e rest ih =>
      intro s h
      exact ih _ (not_mem_spliceSpan s e '\n' h (by decide) (by decide))

theorem replaceNewlines_eq_self (s : Str) (h : '\n' ∉ s) : replaceNewlines s = s := by
  induction s with
  | nil => rfl
  | cons c rest ih =>
      rw [replaceNewlines,
          if_neg (fun hc => h (by rw [← hc]; exact List.mem_cons_self _ _)),
          ih (fun hm => h (List.mem_cons_of_mem _ hm))]

theorem pairwise_chain_of_sorted (d : List ErrorRec)
    (hs : List.Sorted offGE d) (hd : List.Pairwise spanDisjoint d)
    (hpos : ∀ e ∈ d, 1 ≤ e.length) :
    List.Pairwise chainBefore d := by
  have hand : List.Pairwise (fun a b => offGE a b ∧ spanDisjoint a b) d :=
    List.Pairwise.and hs hd
  refine List.Pairwise.imp_of_mem ?_ hand
  intro a b ha _
  rintro ⟨hge, hdis⟩
  have hpa := hpos a ha
  rcases hdis with h | h
  · exfalso
    unfold offGE at hge
    unfold spanDisjoint at *
    omega
  · exact h

/-! ## Helper lemmas: whitespace stripping -/

theorem stripTrailing_append (a b : Str) :
    stripTrailing (a ++ b) =
      if stripTrailing b = [] then stripTrailing a else a ++ stripTrailing b := by
  unfold stripTrailing
  rw [List.reverse_append, List.dropWhile_append]
  by_cases h : List.dropWhile pyIsSpace b.reverse = []
  · simp [h]
  · simp [h, List.isEmpty_iff, List.reverse_eq_nil_iff]

theorem stripTrailing_singleton (c : Char) :
    stripTrailing [c] = if pyIsSpace c then [] else [c] := by
  unfold stripTrailing
  by_cases h : pyIsSpace c <;> simp [List.dropWhile_cons, h]

theorem stripTrailing_cons (c : Char) (t : Str) :
    stripTrailing (c :: t) =
      if stripTrailing t = [] then (if pyIsSpace c then [] else [c])
      else c :: stripTrailing t := by
  have h := stripTrailing_append [c] t
  simpa [stripTrailing_singleton] using h

theorem stripTrailing_eq_nil_iff (s : Str) :
    stripTrailing s = [] ↔ ∀ c ∈ s, pyIsSpace c = true := by
  unfold stripTrailing
  rw [List.reverse_eq_nil_iff, List.dropWhile_eq_nil_iff]
  constructor <;> intro h c hc
  · exact h c (List.mem_reverse.mpr hc)
  · exact h c (List.mem_reverse.mp hc)

theorem dropWhile_stripTrailing (s : Str) :
    List.dropWhile pyIsSpace (stripTrailing s) =
      stripTrailing (List.dropWhile pyIsSpace s) := by
  induction s with
  | nil => rfl
  | cons c s' ih =>
      by_cases hp : pyIsSpace c <;> by_cases hn : stripTrailing s' = [] <;>
        simp [stripTrailing_cons, hp, hn, List.dropWhile_cons, ← ih]

theorem pyStrip_eq_dropWhile_stripTrailing (s : Str) :
    pyStrip s = List.dropWhile pyIsSpace (stripTrailing s) := by
  unfold pyStrip
  exact (dropWhile_stripTrailing s).symm

theorem dropWhile_pyIsSpace_idem (s : Str) :
    List.dropWhile pyIsSpace (List.dropWhile pyIsSpace s) =
      List.dropWhile pyIsSpace s := by
  induction s with
  | nil => rfl
  | cons c s' ih =>
      by_cases hp : pyIsSpace c
      · simp [List.dropWhile_cons, hp, ih]
      · simp [List.dropWhile_cons, hp]

theorem stripTrailing_idem (s : Str) :
    stripTrailing (stripTrailing s) = stripTrailing s := by
  show ((stripTrailing s).reverse.dropWhile pyIsSpace).reverse = stripTrailing s
  unfold stripTrailing
  rw [List.reverse_reverse, dropWhile_pyIsSpace_idem]

theorem pyStrip_stripTrailing (s : Str) : pyStrip (stripTrailing s) = pyStrip s := by
  rw [pyStrip_eq_dropWhile_stripTrailing, pyStrip_eq_dropWhile_stripTrailing,
    stripTrailing_idem]

theorem pyStrip_idem (s : Str) : pyStrip (pyStrip s) = pyStrip s := by
  show pyStrip (stripTrailing (s.dropWhile pyIsSpace)) = pyStrip s
  rw [pyStrip_stripTrailing]
  show stripTrailing ((s.dropWhile pyIsSpace).dropWhile pyIsSpace) = pyStrip s
  rw [dropWhile_pyIsSpace_idem]
  rfl

theorem pyStrip_cons_space (s : Str) : pyStrip (' ' :: s) = pyStrip s := by
  show stripTrailing (List.dropWhile pyIsSpace (' ' :: s)) = _
  rw [List.dropWhile_cons, if_pos (by decide)]
  rfl

theorem pyStrip_append_space (u : Str) : pyStrip (u ++ [' ']) = pyStrip u := by
  rw [pyStrip_eq_dropWhile_stripTrailing, pyStrip_eq_dropWhile_stripTrailing,
    stripTrailing_append, if_pos (show stripTrailing [' '] = [] from rfl)]

theorem mem_of_mem_dropWhile {c : Char} {p : Char → Bool} {s : Str}
    (h : c ∈ List.dropWhile p s) : c ∈ s := by
  induction s with
  | nil => simp at h
  | cons x s' ih =>
      rw [List.dropWhile_cons] at h
      by_cases hp : p x
      · rw [if_pos hp] at h
        exact List.mem_cons_of_mem _ (ih h)
      · rw [if_neg hp] at h
        exact h

theorem not_mem_pyStrip {c : Char} {s : Str} (h : c ∉ s) : c ∉ pyStrip s := by
  intro hc
  unfold pyStrip stripTrailing at hc
  have h1 := mem_of_mem_dropWhile (List.mem_reverse.mp hc)
  have h2 := mem_of_mem_dropWhile (List.mem_reverse.mp h1)
  exact h h2

theorem pyStrip_eq_nil_of_stripTrailing (s : Str) (h : stripTrailing s = []) :
    pyStrip s = [] := by
  rw [pyStrip_eq_dropWhile_stripTrailing, h]
  rfl

/-! ## Helper lemmas: prefix matching under an arbitrary tail -/

theorem isPrefixOf_append_of_length_le (a : Str) :
    ∀ b t : Str, a.length ≤ b.length → a.isPrefixOf (b ++ t) = a.isPrefixOf b := by
  induction a with
  | nil => intro b t _; simp [List.isPrefixOf]
  | cons x a' ih =>
      intro b t h
      cases b with
      | nil => simp at h
      | cons y b' =>
          simp only [List.cons_append, List.isPrefixOf, List.append_eq]
          rw [ih b' t (by simpa using h)]

theorem isPrefixOf_append_self (a : Str) : ∀ t : Str, a.isPrefixOf (a ++ t) = true := by
  induction a with
  | nil => intro t; simp [List.isPrefixOf]
  | cons x a' ih => intro t; simp [List.isPrefixOf, ih]

theorem isPrefixOf_of_longer (b : Str) :
    ∀ a t : Str, b.length ≤ a.length → b.isPrefixOf a = false →
      a.isPrefixOf (b ++ t) = false := by
  induction b with
  | nil => intro a t _ hb; simp [List.isPrefixOf] at hb
  | cons y b' ih =>
      intro a t h hb
      cases a with
      | nil => simp at h
      | cons x a' =>
          simp only [List.cons_append, List.isPrefixOf, List.append_eq] at hb ⊢
          by_cases hxy : x = y
          · subst hxy
            simp only [beq_self_eq_true, Bool.true_and] at hb ⊢
            exact ih a' t (by simpa using h) hb
          · simp [hxy]

theorem isPrefixOf_stable_false (a b t : Str)
    (h : (a.length ≤ b.length ∧ a.isPrefixOf b = false) ∨
         (b.length ≤ a.length ∧ b.isPrefixOf a = false)) :
    a.isPrefixOf (b ++ t) = false := by
  rcases h with ⟨h1, h2⟩ | ⟨h1, h2⟩
  · rw [isPrefixOf_append_of_length_le a b t h1]; exact h2
  · exact isPrefixOf_of_longer b a t h1 h2

theorem afterFirstColon_append (a r : Str) (h : ':' ∉ a) :
    afterFirstColon (a ++ ':' :: r) = r := by
  induction a with
  | nil => simp [afterFirstColon]
  | cons c a' ih =>
      rw [List.cons_append, afterFirstColon,
        if_neg (fun hc => h (by rw [hc]; exact List.mem_cons_self _ _)),
        ih (fun hm => h (List.mem_cons_of_mem _ hm))]

theorem removeMarks_append (a b : Str) :
    removeMarks (a ++ b) = removeMarks a ++ removeMarks b := by
  unfold removeMarks
  rw [List.filter_append, List.filter_append, List.filter_append]

/-! ## Helper lemmas: which key a rendered label line opens -/

theorem findSection_cons (norm key : Str) (kws : List Str)
    (rest : List (Str × List Str)) :
    findSection norm ((key, kws) :: rest) =
      if (kws.any fun kw => (pyLower kw).isPrefixOf norm) = true then some key
      else findSection norm rest := rfl

theorem findSection_cons_neg (norm key : Str) (kws : List Str)
    (rest : List (Str × List Str))
    (h : (kws.any fun kw => (pyLower kw).isPrefixOf norm) = false) :
    findSection norm ((key, kws) :: rest) = findSection norm rest := by
  rw [findSection_cons, if_neg (by simp [h])]

theorem findSection_cons_pos (norm key : Str) (kws : List Str)
    (rest : List (Str × List Str))
    (h : (kws.any fun kw => (pyLower kw).isPrefixOf norm) = true) :
    findSection norm ((key, kws) :: rest) = some key := by
  rw [findSection_cons, if_pos h]

theorem findSection_key1 (Y : Str) :
    findSection (("task response".data ++ [':']) ++ Y) section_map =
      some ("Task Response".data) := by
  have t1 : (pyLower ("Task Response".data)).isPrefixOf
      (("task response".data ++ [':']) ++ Y) = true := by
    rw [show pyLower ("Task Response".data) = "task response".data from by decide,
      List.append_assoc]
    exact isPrefixOf_append_self _ _
  unfold section_map
  exact findSection_cons_pos _ _ _ _ (by simp only [List.any_cons, t1, Bool.true_or])

theorem findSection_key2 (Y : Str) :
    findSection (("information accuracy".data ++ [':']) ++ Y) section_map =
      some ("Information Accuracy".data) := by
  have f1 := isPrefixOf_stable_false (pyLower ("Task Response".data))
    ("information accuracy".data ++ [':']) Y (by decide)
  have f2 := isPrefixOf_stable_false (pyLower ("Phản hồi yêu cầu".data))
    ("information accuracy".data ++ [':']) Y (by decide)
  have t1 : (pyLower ("Information Accuracy".data)).isPrefixOf
      (("information accuracy".data ++ [':']) ++ Y) = true := by
    rw [show pyLower ("Information Accuracy".data) = "information accuracy".data from by decide,
      List.append_assoc]
    exact isPrefixOf_append_self _ _
  unfold section_map
  rw [findSection_cons_neg _ _ _ _
    (by simp only [List.any_cons, List.any_nil, f1, f2, Bool.or_false,
      Bool.false_or])]
  exact findSection_cons_pos _ _ _ _ (by simp only [List.any_cons, t1, Bool.true_or])

theorem findSection_key3 (Y : Str) :
    findSection (("idea development".data ++ [':']) ++ Y) section_map =
      some ("Idea Development".data) := by
  have f1 := isPrefixOf_stable_false (pyLower ("Task Response".data))
    ("idea development".data ++ [':']) Y (by decide)
  have f2 := isPrefixOf_stable_false (pyLower ("Phản hồi yêu cầu".data))
    ("idea development".data ++ [':']) Y (by decide)
  have f3 := isPrefixOf_stable_false (pyLower ("Information Accuracy".data))
    ("idea development".data ++ [':']) Y (by decide)
  have f4 := isPrefixOf_stable_false (pyLower ("Độ chính xác thông tin".data))
    ("idea development".data ++ [':']) Y (by decide)
  have t1 : (pyLower ("Idea Development".data)).isPrefixOf
      (("idea development".data ++ [':']) ++ Y) = true := by
    rw [show pyLower ("Idea Development".data) = "idea development".data from by decide,
      List.append_assoc]
    exact isPrefixOf_append_self _ _
  unfold section_map
  rw [findSection_cons_neg _ _ _ _
    (by simp only [List.any_cons, List.any_nil, f1, f2, Bool.or_false,
      Bool.false_or])]
  rw [findSection_cons_neg _ _ _ _
    (by simp only [List.any_cons, List.any_nil, f3, f4, Bool.or_false,
      Bool.false_or])]
  exact findSection_cons_pos _ _ _ _ (by simp only [List.any_cons, t1, Bool.true_or])

theorem findSection_key4 (Y : Str) :
    findSection (("coherence".data ++ [':']) ++ Y) section_map =
      some ("Coherence".data) := by
  have f1 := isPrefixOf_stable_false (pyLower ("Task Response".data))
    ("coherence".data ++ [':']) Y (by decide)
  have f2 := isPrefixOf_stable_false (pyLower ("Phản hồi yêu cầu".data))
    ("coherence".data ++ [':']) Y (by decide)
  have f3 := isPrefixOf_stable_false (pyLower ("Information Accuracy".data))
    ("coherence".data ++ [':']) Y (by decide)
  have f4 := isPrefixOf_stable_false (pyLower ("Độ chính xác thông tin".data))
    ("coherence".data ++ [':']) Y (by decide)
  have f5 := isPrefixOf_stable_false (pyLower ("Idea Development".data))
    ("coherence".data ++ [':']) Y (by decide)
  have f6 := isPrefixOf_stable_false (pyLower ("Phát triển ý tưởng".data))
    ("coherence".data ++ [':']) Y (by decide)
  have t1 : (pyLower ("Coherence".data)).isPrefixOf
      (("coherence".data ++ [':']) ++ Y) = true := by
    rw [show pyLower ("Coherence".data) = "coherence".data from by decide,
      List.append_assoc]
    exact isPrefixOf_append_self _ _
  unfold section_map
  rw [findSection_cons_neg _ _ _ _
    (by simp only [List.any_cons, List.any_nil, f1, f2, Bool.or_false,
      Bool.false_or])]
  rw [findSection_cons_neg _ _ _ _
    (by simp only [List.any_cons, List.any_nil, f3, f4, Bool.or_false,
      Bool.false_or])]
  rw [findSection_cons_neg _ _ _ _
    (by simp only [List.any_cons, List.any_nil, f5, f6, Bool.or_false,
      Bool.false_or])]
  exact findSection_cons_pos _ _ _ _ (by simp only [List.any_cons, t1, Bool.true_or])

theorem findSection_key5 (Y : Str) :
    findSection (("summary".data ++ [':']) ++ Y) section_map =
      some ("Summary".data) := by
  have f1 := isPrefixOf_stable_false (pyLower ("Task Response".data))
    ("summary".data ++ [':']) Y (by decide)
  have f2 := isPrefixOf_stable_false (pyLower ("Phản hồi yêu cầu".data))
    ("summary".data ++ [':']) Y (by decide)
  have f3 := isPrefixOf_stable_false (pyLower ("Information Accuracy".data))
    ("summary".data ++ [':']) Y (by decide)
  have f4 := isPrefixOf_stable_false (pyLower ("Độ chính xác thông tin".data))
    ("summary".data ++ [':']) Y (by decide)
  have f5 := isPrefixOf_stable_false (pyLower ("Idea Development".data))
    ("summary".data ++ [':']) Y (by decide)
  have f6 := isPrefixOf_stable_false (pyLower ("Phát triển ý tưởng".data))
    ("summary".data ++ [':']) Y (by decide)
  have f7 := isPrefixOf_stable_false (pyLower ("Coherence".data))
    ("summary".data ++ [':']) Y (by decide)
  have f8 := isPrefixOf_stable_false (pyLower ("Sự mạch lạc".data))
    ("summary".data ++ [':']) Y (by decide)
  have t1 : (pyLower ("Summary".data)).isPrefixOf
      (("summary".data ++ [':']) ++ Y) = true := by
    rw [show pyLower ("Summary".data) = "summary".data from by decide,
      List.append_assoc]
    exact isPrefixOf_append_self _ _
  unfold section_map
  rw [findSection_cons_neg _ _ _ _
    (by simp only [List.any_cons, List.any_nil, f1, f2, Bool.or_false,
      Bool.false_or])]
  rw [findSection_cons_neg _ _ _ _
    (by simp only [List.any_cons, List.any_nil, f3, f4, Bool.or_false,
      Bool.false_or])]
  rw [findSection_cons_neg _ _ _ _
    (by simp only [List.any_cons, List.any_nil, f5, f6, Bool.or_false,
      Bool.false_or])]
  rw [findSection_cons_neg _ _ _ _
    (by simp only [List.any_cons, List.any_nil, f7, f8, Bool.or_false,
      Bool.false_or])]
  exact findSection_cons_pos _ _ _ _ (by simp only [List.any_cons, t1, Bool.true_or])

theorem findSection_key6 (Y : Str) :
    findSection (("final evaluation".data ++ [':']) ++ Y) section_map =
      some ("Final Evaluation".data) := by
  have f1 := isPrefixOf_stable_false (pyLower ("Task Response".data))
    ("final evaluation".data ++ [':']) Y (by decide)
  have f2 := isPrefixOf_stable_false (pyLower ("Phản hồi yêu cầu".data))
    ("final evaluation".data ++ [':']) Y (by decide)
  have f3 := isPrefixOf_stable_false (pyLower ("Information Accuracy".data))
    ("final evaluation".data ++ [':']) Y (by decide)
  have f4 := isPrefixOf_stable_false (pyLower ("Độ chính xác thông tin".data))
    ("final evaluation".data ++ [':']) Y (by decide)
  have f5 := isPrefixOf_stable_false (pyLower ("Idea Development".data))
    ("final evaluation".data ++ [':']) Y (by decide)
  have f6 := isPrefixOf_stable_false (pyLower ("Phát triển ý tưởng".data))
    ("final evaluation".data ++ [':']) Y (by decide)
  have f7 := isPrefixOf_stable_false (pyLower ("Coherence".data))
    ("final evaluation".data ++ [':']) Y (by decide)
  have f8 := isPrefixOf_stable_false (pyLower ("Sự mạch lạc".data))
    ("final evaluation".data ++ [':']) Y (by decide)
  have f9 := isPrefixOf_stable_false (pyLower ("Summary".data))
    ("final evaluation".data ++ [':']) Y (by decide)
  have f10 := isPrefixOf_stable_false (pyLower ("Kết luận".data))
    ("final evaluation".data ++ [':']) Y (by decide)
  have t1 : (pyLower ("Final Evaluation".data)).isPrefixOf
      (("final evaluation".data ++ [':']) ++ Y) = true := by
    rw [show pyLower ("Final Evaluation".data) = "final evaluation".data from by decide,
      List.append_assoc]
    exact isPrefixOf_append_self _ _
  unfold section_map
  rw [findSection_cons_neg _ _ _ _
    (by simp only [List.any_cons, List.any_nil, f1, f2, Bool.or_false,
      Bool.false_or])]
  rw [findSection_cons_neg _ _ _ _
    (by simp only [List.any_cons, List.any_nil, f3, f4, Bool.or_false,
      Bool.false_or])]
  rw [findSection_cons_neg _ _ _ _
    (by simp only [List.any_cons, List.any_nil, f5, f6, Bool.or_false,
      Bool.false_or])]
  rw [findSection_cons_neg _ _ _ _
    (by simp only [List.any_cons, List.any_nil, f7, f8, Bool.or_false,
      Bool.false_or])]
  rw [findSection_cons_neg _ _ _ _
    (by simp only [List.any_cons, List.any_nil, f9, f10, Bool.or_false,
      Bool.false_or])]
  exact findSection_cons_pos _ _ _ _ (by simp only [List.any_cons, t1, Bool.true_or])

theorem findSection_key7 (Y : Str) :
    findSection (("ai plagiarism".data ++ [':']) ++ Y) section_map =
      some ("AI Plagiarism".data) := by
  have f1 := isPrefixOf_stable_false (pyLower ("Task Response".data))
    ("ai plagiarism".data ++ [':']) Y (by decide)
  have f2 := isPrefixOf_stable_false (pyLower ("Phản hồi yêu cầu".data))
    ("ai plagiarism".data ++ [':']) Y (by decide)
  have f3 := isPrefixOf_stable_false (pyLower ("Information Accuracy".data))
    ("ai plagiarism".data ++ [':']) Y (by decide)
  have f4 := isPrefixOf_stable_false (pyLower ("Độ chính xác thông tin".data))
    ("ai plagiarism".data ++ [':']) Y (by decide)
  have f5 := isPrefixOf_stable_false (pyLower ("Idea Development".data))
    ("ai plagiarism".data ++ [':']) Y (by decide)
  have f6 := isPrefixOf_stable_false (pyLower ("Phát triển ý tưởng".data))
    ("ai plagiarism".data ++ [':']) Y (by decide)
  have f7 := isPrefixOf_stable_false (pyLower ("Coherence".data))
    ("ai plagiarism".data ++ [':']) Y (by decide)
  have f8 := isPrefixOf_stable_false (pyLower ("Sự mạch lạc".data))
    ("ai plagiarism".data ++ [':']) Y (by decide)
  have f9 := isPrefixOf_stable_false (pyLower ("Summary".data))
    ("ai plagiarism".data ++ [':']) Y (by decide)
  have f10 := isPrefixOf_stable_false (pyLower ("Kết luận".data))
    ("ai plagiarism".data ++ [':']) Y (by decide)
  have f11 := isPrefixOf_stable_false (pyLower ("Final Evaluation".data))
    ("ai plagiarism".data ++ [':']) Y (by decide)
  have f12 := isPrefixOf_stable_false (pyLower ("Đánh giá tổng quan".data))
    ("ai plagiarism".data ++ [':']) Y (by decide)
  have t1 : (pyLower ("AI Plagiarism".data)).isPrefixOf
      (("ai plagiarism".data ++ [':']) ++ Y) = true := by
    rw [show pyLower ("AI Plagiarism".data) = "ai plagiarism".data from by decide,
      List.append_assoc]
    exact isPrefixOf_append_self _ _
  unfold section_map
  rw [findSection_cons_neg _ _ _ _
    (by simp only [List.any_cons, List.any_nil, f1, f2, Bool.or_false,
      Bool.false_or])]
  rw [findSection_cons_neg _ _ _ _
    (by simp only [List.any_cons, List.any_nil, f3, f4, Bool.or_false,
      Bool.false_or])]
  rw [findSection_cons_neg _ _ _ _
    (by simp only [List.any_cons, List.any_nil, f5, f6, Bool.or_false,
      Bool.false_or])]
  rw [findSection_cons_neg _ _ _ _
    (by simp only [List.any_cons, List.any_nil, f7, f8, Bool.or_false,
      Bool.false_or])]
  rw [findSection_cons_neg _ _ _ _
    (by simp only [List.any_cons, List.any_nil, f9, f10, Bool.or_false,
      Bool.false_or])]
  rw [findSection_cons_neg _ _ _ _
    (by simp only [List.any_cons, List.any_nil, f11, f12, Bool.or_false,
      Bool.false_or])]
  exact findSection_cons_pos _ _ _ _ (by simp only [List.any_cons, t1, Bool.true_or])

/-! ## Helper lemmas: processing of a rendered "Key: value" line -/

theorem dropWhile_label (k : Str) (hne : k ≠ [])
    (hdw : List.dropWhile pyIsSpace k = k) (X : Str) :
    List.dropWhile pyIsSpace (k ++ X) = k ++ X := by
  rw [List.dropWhile_append, hdw, if_neg (by simp [List.isEmpty_iff, hne])]

theorem stripTrailing_label (k X : Str) :
    stripTrailing ((k ++ [':']) ++ X) = k ++ ':' :: stripTrailing X := by
  rw [stripTrailing_append]
  by_cases hX : stripTrailing X = []
  · rw [if_pos hX, hX, stripTrailing_append,
      if_neg (show ¬ stripTrailing [':'] = [] from by decide),
      show stripTrailing [':'] = [':'] from rfl]
  · rw [if_neg hX, List.append_assoc]
    rfl

theorem stepLine_labeled (k s : Str) (st : ParseState) (hk : labelOK k) :
    stepLine st (k ++ ':' :: ' ' :: s) =
      { current := some k,
        parsed := if pyStrip s = [] then st.parsed
                  else appendContent st.parsed k (pyStrip s ++ [' ']) } := by
  obtain ⟨hne, hfs, hrm, hdw, _, hcol⟩ := hk
  have hclean : pyStrip (k ++ ':' :: ' ' :: s) =
      k ++ ':' :: stripTrailing (' ' :: s) := by
    show stripTrailing (List.dropWhile pyIsSpace (k ++ ':' :: ' ' :: s)) = _
    rw [dropWhile_label k hne hdw,
      show k ++ ':' :: ' ' :: s = (k ++ [':']) ++ (' ' :: s) by simp,
      stripTrailing_label]
  have hcleanne : k ++ ':' :: stripTrailing (' ' :: s) ≠ [] := by simp
  have hnorm : normLine (k ++ ':' :: stripTrailing (' ' :: s)) =
      (pyLower k ++ [':']) ++
        pyLower (stripTrailing (removeMarks (stripTrailing (' ' :: s)))) := by
    unfold normLine
    have h1 : removeMarks (k ++ ':' :: stripTrailing (' ' :: s)) =
        k ++ ':' :: removeMarks (stripTrailing (' ' :: s)) := by
      rw [show k ++ ':' :: stripTrailing (' ' :: s) =
          (k ++ [':']) ++ stripTrailing (' ' :: s) by simp,
        removeMarks_append, removeMarks_append, hrm,
        show removeMarks [':'] = [':'] from rfl]
      simp
    rw [h1]
    have h2 : pyStrip (k ++ ':' :: removeMarks (stripTrailing (' ' :: s))) =
        k ++ ':' :: stripTrailing (removeMarks (stripTrailing (' ' :: s))) := by
      show stripTrailing (List.dropWhile pyIsSpace _) = _
      rw [dropWhile_label k hne hdw,
        show k ++ ':' :: removeMarks (stripTrailing (' ' :: s)) =
          (k ++ [':']) ++ removeMarks (stripTrailing (' ' :: s)) by simp,
        stripTrailing_label]
    rw [h2]
    unfold pyLower
    rw [show k ++ ':' :: stripTrailing (removeMarks (stripTrailing (' ' :: s))) =
        (k ++ [':']) ++ stripTrailing (removeMarks (stripTrailing (' ' :: s))) by simp,
      List.map_append, List.map_append,
      show List.map pyLower1 [':'] = [':'] from by decide]
  have hfind : findSection (normLine (k ++ ':' :: stripTrailing (' ' :: s)))
      section_map = some k := by
    rw [hnorm]
    exact hfs _
  have hmem : ':' ∈ k ++ ':' :: stripTrailing (' ' :: s) :=
    List.mem_append_right _ (List.mem_cons_self _ _)
  have hafter : afterFirstColon (k ++ ':' :: stripTrailing (' ' :: s)) =
      stripTrailing (' ' :: s) := afterFirstColon_append _ _ hcol
  have hcontent : pyStrip (stripTrailing (' ' :: s)) = pyStrip s := by
    rw [pyStrip_stripTrailing, pyStrip_cons_space]
  simp only [stepLine, hclean, hcleanne, if_neg, hfind, if_pos hmem, hafter, hcontent]
  by_cases hs : pyStrip s = [] <;> simp [hs]

theorem labelOK_key1 : labelOK ("Task Response".data) := by
  refine ⟨by decide, ?_, by decide, by decide, by decide, by decide⟩
  intro Y
  rw [show pyLower ("Task Response".data) = "task response".data from by decide]
  exact findSection_key1 Y

theorem labelOK_key2 : labelOK ("Information Accuracy".data) := by
  refine ⟨by decide, ?_, by decide, by decide, by decide, by decide⟩
  intro Y
  rw [show pyLower ("Information Accuracy".data) = "information accuracy".data
    from by decide]
  exact findSection_key2 Y

theorem labelOK_key3 : labelOK ("Idea Development".data) := by
  refine ⟨by decide, ?_, by decide, by decide, by decide, by decide⟩
  intro Y
  rw [show pyLower ("Idea Development".data) = "idea development".data from by decide]
  exact findSection_key3 Y

theorem labelOK_key4 : labelOK ("Coherence".data) := by
  refine ⟨by decide, ?_, by decide, by decide, by decide, by decide⟩
  intro Y
  rw [show pyLower ("Coherence".data) = "coherence".data from by decide]
  exact findSection_key4 Y

theorem labelOK_key5 : labelOK ("Summary".data) := by
  refine ⟨by decide, ?_, by decide, by decide, by decide, by decide⟩
  intro Y
  rw [show pyLower ("Summary".data) = "summary".data from by decide]
  exact findSection_key5 Y

theorem labelOK_key6 : labelOK ("Final Evaluation".data) := by
  refine ⟨by decide, ?_, by decide, by decide, by decide, by decide⟩
  intro Y
  rw [show pyLower ("Final Evaluation".data) = "final evaluation".data from by decide]
  exact findSection_key6 Y

theorem labelOK_key7 : labelOK ("AI Plagiarism".data) := by
  refine ⟨by decide, ?_, by decide, by decide, by decide, by decide⟩
  intro Y
  rw [show pyLower ("AI Plagiarism".data) = "ai plagiarism".data from by decide]
  exact findSection_key7 Y

theorem labelOK_all : ∀ k ∈ sectionKeys, labelOK k := by
  intro k hk
  simp only [sectionKeys, section_map, List.map_cons, List.map_nil,
    List.mem_cons, List.not_mem_nil, or_false] at hk
  rcases hk with h | h | h | h | h | h | h
  · exact h ▸ labelOK_key1
  · exact h ▸ labelOK_key2
  · exact h ▸ labelOK_key3
  · exact h ▸ labelOK_key4
  · exact h ▸ labelOK_key5
  · exact h ▸ labelOK_key6
  · exact h ▸ labelOK_key7

theorem sectionKeys_nodup : sectionKeys.Nodup := by decide

/-! ## Helper lemmas: folding the rendered lines -/

theorem foldl_labeled (v : Str → Str) (ks : List Str) (hk : ∀ k ∈ ks, labelOK k) :
    ∀ st : ParseState,
      (ks.map (fun k => k ++ ':' :: ' ' :: v k)).foldl stepLine st =
        { current := ks.foldl (fun _ k => some k) st.current,
          parsed := ks.foldl (applyLine v) st.parsed } := by
  induction ks with
  | nil => intro st; rfl
  | cons k ks' ih =>
      intro st
      rw [List.map_cons, List.foldl_cons,
        stepLine_labeled k (v k) st (hk k (List.mem_cons_self _ _)),
        ih (fun x hx => hk x (List.mem_cons_of_mem _ hx))]
      rfl

theorem foldl_applyLine_not_mem (v : Str → Str) (ks : List Str) :
    ∀ (p : Str → Str) (q : Str), q ∉ ks → ks.foldl (applyLine v) p q = p q := by
  induction ks with
  | nil => intro p q _; rfl
  | cons k ks' ih =>
      intro p q hq
      have hqk : q ≠ k := fun h => hq (by rw [h]; exact List.mem_cons_self _ _)
      rw [List.foldl_cons, ih _ q (fun h => hq (List.mem_cons_of_mem _ h))]
      unfold applyLine appendContent
      by_cases hs : pyStrip (v k) = [] <;> simp [hs, hqk]

theorem foldl_applyLine_eval (v : Str → Str) (ks : List Str) :
    ∀ (p : Str → Str) (q : Str), ks.Nodup → q ∈ ks →
      ks.foldl (applyLine v) p q =
        if pyStrip (v q) = [] then p q else p q ++ (pyStrip (v q) ++ [' ']) := by
  induction ks with
  | nil => intro p q _ h; simp at h
  | cons k ks' ih =>
      intro p q hnd hq
      rw [List.foldl_cons]
      rcases List.mem_cons.mp hq with h | h
      · subst h
        have hq' : q ∉ ks' := (List.nodup_cons.mp hnd).1
        rw [foldl_applyLine_not_mem v ks' _ q hq']
        unfold applyLine appendContent
        by_cases hs : pyStrip (v q) = [] <;> simp [hs]
      · have hqk : q ≠ k := fun he => (List.nodup_cons.mp hnd).1 (he ▸ h)
        rw [ih _ q (List.nodup_cons.mp hnd).2 h]
        unfold applyLine appendContent
        by_cases hs : pyStrip (v k) = [] <;> simp [hs, hqk]

theorem parseResponse_renderAssessment (v : Str → Str)
    (hv : ∀ k ∈ sectionKeys, '\n' ∉ v k) :
    parseResponse (renderAssessment v) = parsedAssessment v := by
  have hsplit : (renderAssessment v).splitOn '\n' =
      sectionKeys.map (fun k => k ++ ':' :: ' ' :: v k) := by
    unfold renderAssessment
    refine List.splitOn_intercalate _ '\n' ?_ ?_
    · intro l hl
      obtain ⟨k, hk, rfl⟩ := List.mem_map.mp hl
      intro hmem
      rcases List.mem_append.mp hmem with h | h
      · have hkeys : ∀ x ∈ sectionKeys, '\n' ∉ x := by decide
        exact hkeys k hk h
      · rcases List.mem_cons.mp h with h | h
        · exact absurd h (by decide)
        · rcases List.mem_cons.mp h with h | h
          · exact absurd h (by decide)
          · exact hv k hk h
    · simp [sectionKeys, section_map]
  unfold parseResponse parseLines
  rw [hsplit, foldl_labeled v sectionKeys labelOK_all initState]
  funext q
  by_cases hq : q ∈ sectionKeys
  · show sectionKeys.foldl (applyLine v) initState.parsed q = _
    rw [foldl_applyLine_eval v sectionKeys initState.parsed q sectionKeys_nodup hq]
    unfold parsedAssessment initState
    by_cases hs : pyStrip (v q) = [] <;> simp [hs, hq]
  · show sectionKeys.foldl (applyLine v) initState.parsed q = _
    rw [foldl_applyLine_not_mem v sectionKeys initState.parsed q hq]
    unfold parsedAssessment initState
    simp [hq]

theorem parsedAssessment_idem (v : Str → Str) :
    parsedAssessment (parsedAssessment v) = parsedAssessment v := by
  funext q
  unfold parsedAssessment
  by_cases hq : q ∈ sectionKeys
  · simp only [hq, if_true]
    by_cases hs : pyStrip (v q) = []
    · simp [hs, show pyStrip ([] : Str) = [] from rfl]
    · simp only [hs, if_false]
      rw [pyStrip_append_space, pyStrip_idem]
      simp [hs]
  · simp [hq]

/-! ## Claim theorems -/

/-- C2, counterexample: there is no fixed per-span markup overhead once
the text contains a newline — with the identical single in-bounds span,
the output-length increase over the input length is 38 on "a\nb" (the
`<br>` expansion adds 3) but 35 on "ab", so the claimed equality
len(output) = len(text) + sum(overhead per span) fails on "a\nb". -/
theorem claim_C2_cex :
    (render_simple_highlight ("a\nb".data) [⟨0, 1, [], []⟩]).length -
        ("a\nb".data).length ≠
      (render_simple_highlight ("ab".data) [⟨0, 1, [], []⟩]).length -
        ("ab".data).length := by
  decide

/-- C2, amended: for newline-free text and pairwise non-overlapping
positive-length spans within bounds, the output length is len(text)
plus the fixed wrapper overhead (28 + 7 = 35) per span; the output is
exactly the descending-order decomposition of the text with each span
segment wrapped, and erasing the inserted wrappers from that
decomposition reconstructs the original text.  For text containing
newlines the code additionally rewrites each newline to `<br>`, which
the claimed equalities do not account for. -/
theorem claim_C2 (text : Str) (errors : List ErrorRec)
    (hnl : '\n' ∉ text)
    (hpos : ∀ e ∈ errors, 1 ≤ e.length)
    (hb : ∀ e ∈ errors, e.offset + e.length ≤ text.length)
    (hdisj : List.Pairwise spanDisjoint errors) :
    (render_simple_highlight text errors).length =
      text.length + (grammarOpenTag.length + grammarCloseTag.length) * errors.length ∧
    render_simple_highlight text errors = renderSpecD text (sortErrorsDesc errors) ∧
    eraseSpecD text (sortErrorsDesc errors) = text := by
  by_cases hE : errors = []
  · subst hE
    refine ⟨by simp [render_simple_highlight, render_simple_highlight_full], ?_, rfl⟩
    simp [render_simple_highlight, render_simple_highlight_full, sortErrorsDesc,
      List.insertionSort, renderSpecD]
  · have hperm : (sortErrorsDesc errors).Perm errors := List.perm_insertionSort _ _
    have hsorted : List.Sorted offGE (sortErrorsDesc errors) :=
      List.sorted_insertionSort _ _
    have hdisj' : List.Pairwise spanDisjoint (sortErrorsDesc errors) :=
      (List.Perm.pairwise_iff (fun h => Or.symm h) hperm).mpr hdisj
    have hb' : ∀ e ∈ sortErrorsDesc errors, e.offset + e.length ≤ text.length :=
      fun e he => hb e (hperm.mem_iff.mp he)
    have hpos' : ∀ e ∈ sortErrorsDesc errors, 1 ≤ e.length :=
      fun e he => hpos e (hperm.mem_iff.mp he)
    have hchain := pairwise_chain_of_sorted _ hsorted hdisj' hpos'
    have hnl2 : '\n' ∉ (sortErrorsDesc errors).foldl spliceSpan text :=
      not_mem_foldl_spliceSpan _ text hnl
    have hrender : render_simple_highlight text errors =
        (sortErrorsDesc errors).foldl spliceSpan text := by
      simp only [render_simple_highlight, render_simple_highlight_full, hE, if_false]
      exact replaceNewlines_eq_self _ hnl2
    refine ⟨?_, ?_, eraseSpecD_eq _ text hchain hb'⟩
    · rw [hrender, length_foldl_spliceSpan _ text hb', hperm.length_eq]
      have h35 : grammarOpenTag.length + grammarCloseTag.length = 35 := rfl
      rw [h35]
    · rw [hrender, foldl_spliceSpan_eq_renderSpecD _ text hchain hb']

/-- C2, witness: two disjoint single-character spans on "abc". -/
theorem claim_C2_witness :
    (render_simple_highlight ("abc".data)
        [⟨0, 1, [], []⟩, ⟨2, 1, [], []⟩]).length =
      ("abc".data).length + (grammarOpenTag.length + grammarCloseTag.length) *
        ([(⟨0, 1, [], []⟩ : ErrorRec), ⟨2, 1, [], []⟩] : List ErrorRec).length ∧
    render_simple_highlight ("abc".data) [⟨0, 1, [], []⟩, ⟨2, 1, [], []⟩] =
      renderSpecD ("abc".data) (sortErrorsDesc [⟨0, 1, [], []⟩, ⟨2, 1, [], []⟩]) ∧
    eraseSpecD ("abc".data) (sortErrorsDesc [⟨0, 1, [], []⟩, ⟨2, 1, [], []⟩]) =
      "abc".data :=
  claim_C2 ("abc".data) [⟨0, 1, [], []⟩, ⟨2, 1, [], []⟩]
    (by decide) (by decide) (by decide) (by decide)

/-- C3, counterexample: the two input orders of the same two spans (a
permutation of one another) produce different outputs — both spans start
at offset 0, the stable descending sort preserves the input order of the
tie, and the two processing orders interleave the wrappers differently. -/
theorem claim_C3_cex :
    render_simple_highlight ("ab".data) [⟨0, 1, [], []⟩, ⟨0, 2, [], []⟩] ≠
      render_simple_highlight ("ab".data) [⟨0, 2, [], []⟩, ⟨0, 1, [], []⟩] := by
  decide

/-- C3, amended: the highlighter output is invariant under permutation
of the input span sequence provided the spans carry pairwise distinct
offsets (then the descending sort result is unique); with tied offsets
the stable sort preserves input order and permutation invariance fails. -/
theorem claim_C3 (text : Str) (l₁ l₂ : List ErrorRec)
    (hperm : l₁.Perm l₂)
    (hne : List.Pairwise (fun a b => a.offset ≠ b.offset) l₁) :
    render_simple_highlight text l₁ = render_simple_highlight text l₂ := by
  have hsort : sortErrorsDesc l₁ = sortErrorsDesc l₂ := by
    have hp1 : (sortErrorsDesc l₁).Perm l₁ := List.perm_insertionSort _ _
    have hp2 : (sortErrorsDesc l₂).Perm l₂ := List.perm_insertionSort _ _
    have hne₁ : List.Pairwise (fun a b : ErrorRec => a.offset ≠ b.offset)
        (sortErrorsDesc l₁) :=
      (List.Perm.pairwise_iff (fun h => Ne.symm h) hp1).mpr hne
    have hne₂ : List.Pairwise (fun a b : ErrorRec => a.offset ≠ b.offset)
        (sortErrorsDesc l₂) :=
      (List.Perm.pairwise_iff (fun h => Ne.symm h) hp2).mpr
        ((List.Perm.pairwise_iff (fun h => Ne.symm h) hperm).mp hne)
    have hs1 : List.Sorted offGT (sortErrorsDesc l₁) := by
      refine (List.Pairwise.and (List.sorted_insertionSort offGE l₁) hne₁).imp ?_
      rintro a b ⟨hge, hne'⟩
      exact lt_of_le_of_ne hge (fun h => hne' h.symm)
    have hs2 : List.Sorted offGT (sortErrorsDesc l₂) := by
      refine (List.Pairwise.and (List.sorted_insertionSort offGE l₂) hne₂).imp ?_
      rintro a b ⟨hge, hne'⟩
      exact lt_of_le_of_ne hge (fun h => hne' h.symm)
    exact List.eq_of_perm_of_sorted (hp1.trans (hperm.trans hp2.symm)) hs1 hs2
  by_cases h1 : l₁ = []
  · subst h1
    have h2 : l₂ = [] := hperm.symm.eq_nil
    subst h2; rfl
  · have h2 : l₂ ≠ [] := fun h => h1 (by rw [h] at hperm; exact hperm.eq_nil)
    simp only [render_simple_highlight, render_simple_highlight_full, h1, h2,
      if_false, hsort]

/-- C3, witness: two distinct-offset spans given in the two opposite
orders yield the same output. -/
theorem claim_C3_witness :
    render_simple_highlight ("abc".data) [⟨0, 1, [], []⟩, ⟨2, 1, [], []⟩] =
      render_simple_highlight ("abc".data) [⟨2, 1, [], []⟩, ⟨0, 1, [], []⟩] :=
  claim_C3 ("abc".data) _ _ (List.Perm.swap _ _ _) (by decide)

/-- C1, counterexample: called with an empty span sequence on a text
containing a literal newline, the highlighter returns the text as is;
the claimed newline-to-break conversion does not happen (the code
returns before reaching `.replace("\n", "<br>")`). -/
theorem claim_C1_cex :
    ¬ (render_simple_highlight ("a\nb".data) [] = replaceNewlines ("a\nb".data)) := by
  decide

/-- C1, amended: with an empty span sequence the highlighter returns the
input text unchanged, with no newline-to-break conversion. -/
theorem claim_C1 (text : Str) : render_simple_highlight text [] = text := by
  simp [render_simple_highlight, render_simple_highlight_full]

/-- C4: the grammar client returns the empty list on every failing
outcome of the HTTP/JSON layer (network error, timeout, non-2xx status
raised by raise_for_status, JSON decode error — all modelled by
`LTResponse.failure`), and likewise on a well-formed JSON payload one of
whose matches is missing its "offset" or "length" key (the KeyError is
caught by the same `except`).  The model function is total, which is the
shallow rendering of "never raises to the caller". -/
theorem claim_C4 (text : Str) (ms : List LTMatch) :
    check_text text LTResponse.failure = [] ∧
    ((∃ m ∈ ms, m.offset = none ∨ m.length = none) →
      check_text text (LTResponse.success ms) = []) := by
  refine ⟨rfl, fun h => ?_⟩
  simp [check_text, processMatches_eq_none text ms h]

/-- C4, witness: a payload whose single match lacks the "offset" key
yields the empty list. -/
theorem claim_C4_witness :
    check_text ("ab".data) (LTResponse.success [⟨none, some 1, []⟩]) = [] :=
  (claim_C4 ("ab".data) [⟨none, some 1, []⟩]).2
    ⟨⟨none, some 1, []⟩, List.mem_singleton.mpr rfl, Or.inl rfl⟩

/-- C5: parsing the two-line labeled raw text fills exactly the
"Task Response" and "Information Accuracy" sections (with the trailing
space appended by `+= content_part + " "`) and leaves every other
section key empty. -/
theorem claim_C5 :
    parseResponse ("Task Response: Good job.\nInformation Accuracy: Mostly correct.\n".data)
        ("Task Response".data) = "Good job. ".data ∧
    parseResponse ("Task Response: Good job.\nInformation Accuracy: Mostly correct.\n".data)
        ("Information Accuracy".data) = "Mostly correct. ".data ∧
    parseResponse ("Task Response: Good job.\nInformation Accuracy: Mostly correct.\n".data)
        ("Idea Development".data) = [] ∧
    parseResponse ("Task Response: Good job.\nInformation Accuracy: Mostly correct.\n".data)
        ("Coherence".data) = [] ∧
    parseResponse ("Task Response: Good job.\nInformation Accuracy: Mostly correct.\n".data)
        ("Summary".data) = [] ∧
    parseResponse ("Task Response: Good job.\nInformation Accuracy: Mostly correct.\n".data)
        ("Final Evaluation".data) = [] ∧
    parseResponse ("Task Response: Good job.\nInformation Accuracy: Mostly correct.\n".data)
        ("AI Plagiarism".data) = [] := by
  decide

/-- C9, counterexample: the call mutates the caller-supplied error list
in place — `errors.sort(..., reverse=True)` reorders it, so after a call
with spans given in ascending offset order the list is no longer equal
to what the caller passed in. -/
theorem claim_C9_cex :
    (render_simple_highlight_full ("abc".data)
        [⟨0, 1, [], []⟩, ⟨2, 1, [], []⟩]).2 ≠
      [(⟨0, 1, [], []⟩ : ErrorRec), ⟨2, 1, [], []⟩] := by
  decide

/-- C9, amended: the only effect besides the output string is that the
caller-supplied list is sorted in place: after the call it is a
permutation of the original records (each record itself unchanged),
sorted by descending offset; the input text, being immutable, is not
affected. -/
theorem claim_C9 (text : Str) (errors : List ErrorRec) :
    (render_simple_highlight_full text errors).2.Perm errors ∧
    List.Sorted offGE (render_simple_highlight_full text errors).2 := by
  by_cases h : errors = []
  · subst h
    exact ⟨List.Perm.refl _, List.sorted_nil⟩
  · simp only [render_simple_highlight_full, h, if_false, sortErrorsDesc]
    exact ⟨List.perm_insertionSort _ _, List.sorted_insertionSort _ _⟩

/-! ## Helper lemmas: parser, pre-section lines -/

theorem stepLine_no_open (st : ParseState) (l : Str)
    (h : pyStrip l = [] ∨ findSection (normLine (pyStrip l)) section_map = none)
    (hcur : st.current = none) : stepLine st l = st := by
  rcases h with h | h
  · simp [stepLine, h]
  · by_cases hc : pyStrip l = []
    · simp [stepLine, hc]
    · simp [stepLine, hc, h, hcur]

/-- C6: the parsing loop is a total structurally recursive function, so
it terminates with a result on every raw text; and lines processed while
no section has been opened that do not themselves open a section are
silently dropped — parsing is unchanged if they are removed. -/
theorem claim_C6 (pre rest : List Str)
    (h : ∀ l ∈ pre, pyStrip l = [] ∨ findSection (normLine (pyStrip l)) section_map = none) :
    parseLines (pre ++ rest) = parseLines rest := by
  unfold parseLines
  rw [List.foldl_append]
  have hpre : pre.foldl stepLine initState = initState := by
    induction pre with
    | nil => rfl
    | cons l pre' ih =>
        rw [List.foldl_cons, stepLine_no_open initState l (h l (List.mem_cons_self _ _)) rfl]
        exact ih (fun x hx => h x (List.mem_cons_of_mem _ hx))
  rw [hpre]

/-- C6, witness: a stray preamble line before the first labeled line
contributes nothing. -/
theorem claim_C6_witness :
    parseLines (["stray preamble".data] ++ ["Task Response: x".data]) =
      parseLines ["Task Response: x".data] :=
  claim_C6 _ _ (by decide)

/-! ## Helper lemmas: the first-match keyword search -/

theorem findSection_eq_find? (norm : Str) (sm : List (Str × List Str)) :
    findSection norm sm =
      (sm.find? (fun p => p.2.any (fun kw => (pyLower kw).isPrefixOf norm))).map
        Prod.fst := by
  induction sm with
  | nil => rfl
  | cons p rest ih =>
      obtain ⟨key, kws⟩ := p
      by_cases h : (kws.any (fun kw => (pyLower kw).isPrefixOf norm)) = true
      · simp [findSection, h, List.find?_cons]
      · simp only [findSection, h, if_false, ih, List.find?_cons]
        simp [h]

/-- C8: a non-blank line opens the section of the first key, in the
declaration order of `section_map`, one of whose keywords is a
case-insensitive prefix of the normalized line (whitespace-stripped,
with `*`, `-`, `#` removed, lower-cased): if the first-match search
`find?` over the table returns `(key, kws)`, then processing the line
sets the current section to `key`.  In particular, when two keyword
lists share a prefix, the earlier-declared key wins. -/
theorem claim_C8 (st : ParseState) (line key : Str) (kws : List Str)
    (hnb : pyStrip line ≠ [])
    (hfind : section_map.find?
        (fun p => p.2.any
          (fun kw => (pyLower kw).isPrefixOf (normLine (pyStrip line)))) =
        some (key, kws)) :
    (stepLine st line).current = some key := by
  have h : findSection (normLine (pyStrip line)) section_map = some key := by
    rw [findSection_eq_find?, hfind]; rfl
  by_cases hc : ':' ∈ pyStrip line
  · by_cases he : pyStrip (afterFirstColon (pyStrip line)) = []
    · simp [stepLine, hnb, h, hc, he]
    · simp [stepLine, hnb, h, hc, he]
  · simp [stepLine, hnb, h, hc]

/-- C8, witness: the line "Task Response: x" opens the "Task Response"
section. -/
theorem claim_C8_witness :
    (stepLine initState ("Task Response: x".data)).current =
      some ("Task Response".data) :=
  claim_C8 initState ("Task Response: x".data) ("Task Response".data)
    ["Task Response".data, "Phản hồi yêu cầu".data] (by decide) (by decide)

/-- C10, counterexample: `check_text` does not validate the offsets it
receives — a well-formed 2xx response whose single match reports
offset 5, length 2 against the two-character text "ab" is passed through
unchanged, so the returned record violates offset+length ≤ len(text)
(the Python slice for `bad_word` silently clamps instead of raising). -/
theorem claim_C10_cex :
    ¬ (∀ e ∈ check_text ("ab".data) (LTResponse.success [⟨some 5, some 2, []⟩]),
        e.offset + e.length ≤ ("ab".data).length) := by
  decide

/-- C10, amended: every record returned from a successful well-formed
response has at most 3 replacement suggestions, taken as the prefix of
the backend's list for the corresponding match (hence in the backend's
order), and its matched text is the (clamping) slice
`text[offset : offset+length]`; the invariant offset+length ≤ len(text)
holds provided every match reported by the backend is in bounds for the
checked text, which the code trusts without validating. -/
theorem claim_C10 (text : Str) (ms : List LTMatch)
    (hb : ∀ m ∈ ms, ∀ o l, m.offset = some o → m.length = some l →
      o + l ≤ text.length) :
    ∀ e ∈ check_text text (LTResponse.success ms),
      e.replacements.length ≤ 3 ∧
      e.offset + e.length ≤ text.length ∧
      e.bad_word = (text.drop e.offset).take e.length ∧
      ∃ m ∈ ms, m.offset = some e.offset ∧ m.length = some e.length ∧
        e.replacements = m.replacements.take 3 := by
  intro e he
  cases hp : processMatches text ms with
  | none => rw [check_text, hp] at he; simp at he
  | some res =>
      rw [check_text, hp] at he
      obtain ⟨m, hm, hoff, hlen, hrepl, hbad⟩ :=
        processMatches_sound text ms res hp e he
      refine ⟨?_, hb m hm e.offset e.length hoff hlen, hbad, m, hm, hoff, hlen, hrepl⟩
      rw [hrepl]
      exact List.length_take_le 3 m.replacements

/-- C10, witness: a single in-bounds match on "ab" yields a record whose
offset+length stays within the text. -/
theorem claim_C10_witness :
    (⟨0, 1, [], ['a']⟩ : ErrorRec).offset + (⟨0, 1, [], ['a']⟩ : ErrorRec).length ≤
      ("ab".data).length :=
  (claim_C10 ("ab".data) [⟨some 0, some 1, []⟩]
    (by
      intro m hm o l ho hl
      rw [List.mem_singleton] at hm
      subst hm
      have ho' : some (0 : Nat) = some o := ho
      have hl' : some (1 : Nat) = some l := hl
      injection ho' with ho''
      injection hl' with hl''
      subst ho''
      subst hl''
      decide)
    ⟨0, 1, [], ['a']⟩ (by decide)).2.1

/-- C7: parsing is idempotent on already-well-formed input with exactly
one "Key: value" line per section (modelled as the rendering of an
arbitrary newline-free value per section key): rendering the parsed map
back to one "Key: value" line per section and re-parsing that rendering
yields the same map as the first parse. -/
theorem claim_C7 (v : Str → Str) (hv : ∀ k ∈ sectionKeys, '\n' ∉ v k) :
    parseResponse (renderAssessment (parseResponse (renderAssessment v))) =
      parseResponse (renderAssessment v) := by
  have h1 := parseResponse_renderAssessment v hv
  have hv2 : ∀ k ∈ sectionKeys, '\n' ∉ parsedAssessment v k := by
    intro k hk
    unfold parsedAssessment
    rw [if_pos hk]
    by_cases hs : pyStrip (v k) = []
    · rw [if_pos hs]
      exact List.not_mem_nil _
    · rw [if_neg hs]
      intro hmem
      rcases List.mem_append.mp hmem with h | h
      · exact not_mem_pyStrip (hv k hk) h
      · exact absurd h (by decide)
  rw [h1, parseResponse_renderAssessment (parsedAssessment v) hv2,
    parsedAssessment_idem]

/-- C7, witness: a concrete well-formed assessment round-trips to the
same map. -/
theorem claim_C7_witness :
    parseResponse (renderAssessment (parseResponse (renderAssessment demoAssessment))) =
      parseResponse (renderAssessment demoAssessment) :=
  claim_C7 demoAssessment (by decide)

end Essay
